import Mathlib

/-!
Verification of the test-file generator scripts of the ply-visualizer
repository against its natural-language specification.

The Python sources are shallowly embedded:
* byte streams are `List Nat` (each entry a byte value),
* 32-bit float samples are carried as their IEEE-754 bit patterns
  (`Nat` words), since only their 4-byte little-endian serialization
  matters to the claims,
* Python integers are `Int`, `int(x)` on a quotient is truncation
  toward zero (`Int.tdiv`), Python's `<<` and `|` on (possibly
  negative) integers are `Int`'s two's-complement `<<<` and `Int.lor`,
* `struct.pack` range failures are modelled with `Except`.
-/

/-! ## Byte-level helpers (`struct.pack` fragments) -/

/-- Little-endian serialization of a 16-bit word. -/
def u16le (v : Nat) : List Nat := [v % 256, v / 256 % 256]

/-- Little-endian serialization of a 32-bit word. -/
def u32le (v : Nat) : List Nat :=
  [v % 256, v / 256 % 256, v / 2 ^ 16 % 256, v / 2 ^ 24 % 256]

/-- `struct.pack('<f', x)`: the 4 little-endian bytes of the IEEE-754
bit pattern `w` of the float. -/
def f32le (w : Nat) : List Nat := u32le w

/-- `struct.pack('<I', v)`: 4 bytes, raising `struct.error` when the
value does not fit an unsigned 32-bit integer. -/
def packU32 (v : Nat) : Except String (List Nat) :=
  if v < 2 ^ 32 then .ok (u32le v)
  else .error "struct.error: argument out of range"

/-- `struct.pack('<H', v)`: 2 bytes, raising `struct.error` when the
(Python, possibly negative) integer is outside `[0, 65535]`. -/
def packU16 (v : Int) : Except String (List Nat) :=
  if 0 ≤ v ∧ v < 65536 then .ok (u16le v.toNat)
  else .error "struct.error: ushort format requires 0 <= number <= 65535"

/-! ## `src/testfiles/stl/create_test_stl.py` : `write_binary_stl` -/

/-- A triangle record as consumed by `write_binary_stl`: the `normal`
and each vertex are lists of float words; `color` is absent (`none`) or
a list of integer channels (possibly empty, possibly out of range). -/
structure STLTriangle where
  normal : List Nat
  vertices : List (List Nat)
  color : Option (List Int)
deriving Repr, DecidableEq

/-- `struct.pack('<fff', xs[0], xs[1], xs[2])`: 12 bytes, or an
`IndexError` when the list has fewer than three entries. -/
def pack3f (xs : List Nat) : Except String (List Nat) :=
  match xs.get? 0, xs.get? 1, xs.get? 2 with
  | some a, some b, some c => .ok (f32le a ++ f32le b ++ f32le c)
  | _, _, _ => .error "IndexError"

/-- Sequential `f.write` of one packed chunk per list element,
propagating the first exception. -/
def packList (f : α → Except String (List Nat)) :
    List α → Except String (List Nat)
  | [] => .ok []
  | x :: xs => do
    let b ← f x
    let rest ← packList f xs
    .ok (b ++ rest)

/-- `255 * (2^1024 - 2^970)`, stored as a numeral so that evaluation
never unfolds the unary integer power (see `pyOverflowBound_eq` for
the certificate). -/
def pyOverflowBound : Int :=
  45841174938989053102400887708352370845383203841059645868724313640013466914655011491395499584284737809564223036256686417291371664702244802670817659611233984273886770010180637837449832985683516440599941311218867813170698574703824943279064512908801199643363912953313205229607391447723374563725934445365564496936960

lemma pyOverflowBound_eq :
    pyOverflowBound = 255 * (2 ^ 1024 - 2 ^ 970) := by
  unfold pyOverflowBound
  norm_num

/-- `int(a / 255)` as CPython evaluates it on integers: `a / 255` is
true division returning a correctly rounded IEEE-754 double, which
raises `OverflowError` exactly when the exact quotient's magnitude
reaches the round-to-nearest-even overflow threshold `2^1024 - 2^970`
— i.e. when `|a| ≥ 255 * (2^1024 - 2^970)`.  Below the threshold,
`int(·)` truncates the rounded quotient toward zero; that coincides
with exact truncation (`Int.tdiv`) on every input whose trailer the
program can observe: quotients of magnitude below `2^46` are closer
than half an ulp to the exact rational (whose distance to any integer
is at least `1/255`), larger positive quotients are clamped to the
same value by the following `min`, and any quotient `≤ -1` leads to
the same negative packed value rejection by `struct.pack`. -/
def pyIntDiv255 (a : Int) : Except String Int :=
  if pyOverflowBound ≤ |a| then
    .error "OverflowError: integer division result too large for a float"
  else .ok (a.tdiv 255)

/-- The 2-byte attribute trailer of `write_binary_stl`.  Python's
`if color:` sends both a missing color and an empty color list to the
zero branch; otherwise each channel is scaled by `int(color[i]*k/255)`
(true division, see `pyIntDiv255`), clamped from above by `min`, and
the three fields are combined with `<<`/`|` before
`struct.pack('<H', ...)`. -/
def trailerBytes (color : Option (List Int)) : Except String (List Nat) :=
  match color with
  | some c =>
    if c.isEmpty then packU16 0
    else
      match c.get? 0, c.get? 1, c.get? 2 with
      | some c0, some c1, some c2 => do
        let r0 ← pyIntDiv255 (c0 * 31)
        let g0 ← pyIntDiv255 (c1 * 63)
        let b0 ← pyIntDiv255 (c2 * 31)
        let r := min 31 r0
        let g := min 63 g0
        let b := min 31 b0
        packU16 (Int.lor (Int.lor (r <<< (11 : Int)) (g <<< (5 : Int))) b)
      | _, _, _ => .error "IndexError"
  | none => packU16 0

/-- The 50-byte (when well-formed) record of one triangle: normal,
the vertices in input order, then the attribute trailer. -/
def triangleBytes (t : STLTriangle) : Except String (List Nat) := do
  let nb ← pack3f t.normal
  let vb ← packList pack3f t.vertices
  let tb ← trailerBytes t.color
  .ok (nb ++ vb ++ tb)

/-- The 80-byte header: the label's UTF-8 bytes (taken as the input
list) truncated to 80 bytes, then null-padded on the right. -/
def headerBytes (header : List Nat) : List Nat :=
  let hb := header.take 80
  hb ++ List.replicate (80 - hb.length) 0

/-- `write_binary_stl`: header, 4-byte little-endian triangle count,
then each triangle's record in sequence order. -/
def write_binary_stl (header : List Nat) (triangles : List STLTriangle) :
    Except String (List Nat) := do
  let cb ← packU32 triangles.length
  let body ← packList triangleBytes triangles
  .ok (headerBytes header ++ cb ++ body)

example :
    trailerBytes (some [255, 0, 0]) = .ok [0x00, 0xF8] := by rfl

example :
    trailerBytes (some [-255, 0, 0]) =
      .error "struct.error: ushort format requires 0 <= number <= 65535" := by
  rfl

example : trailerBytes (some []) = .ok [0, 0] := by rfl
example : trailerBytes (some [0, 0, 0]) = .ok [0, 0] := by rfl

/-! ### Structural lemmas about the STL serializer -/

lemma packU16_ok_length {v : Int} {b : List Nat}
    (h : packU16 v = .ok b) : b.length = 2 := by
  unfold packU16 at h
  split at h
  · cases h; rfl
  · cases h

lemma pack3f_ok_length {xs : List Nat} {b : List Nat}
    (h : pack3f xs = .ok b) : b.length = 12 := by
  unfold pack3f at h
  split at h
  · cases h; rfl
  · cases h

lemma exceptBind_ok {ε α β : Type} {x : Except ε α} {f : α → Except ε β}
    {b : β} (h : x >>= f = .ok b) : ∃ a, x = .ok a ∧ f a = .ok b := by
  cases x with
  | error e => exact Except.noConfusion h
  | ok a => exact ⟨a, rfl, h⟩

lemma trailerBytes_ok_length {c : Option (List Int)} {b : List Nat}
    (h : trailerBytes c = .ok b) : b.length = 2 := by
  unfold trailerBytes at h
  split at h
  · split at h
    · exact packU16_ok_length h
    · split at h
      · obtain ⟨r0, hr0, h⟩ := exceptBind_ok h
        obtain ⟨g0, hg0, h⟩ := exceptBind_ok h
        obtain ⟨b0, hb0, h⟩ := exceptBind_ok h
        exact packU16_ok_length h
      · cases h
  · exact packU16_ok_length h

/-- Below the overflow threshold the trailer reduces to the clamped
exact truncations. -/
lemma trailerBytes_eval (c0 c1 c2 : Int)
    (h0 : |c0 * 31| < pyOverflowBound)
    (h1 : |c1 * 63| < pyOverflowBound)
    (h2 : |c2 * 31| < pyOverflowBound) :
    trailerBytes (some [c0, c1, c2]) =
      packU16 (Int.lor (Int.lor
        ((min 31 ((c0 * 31).tdiv 255)) <<< (11 : Int))
        ((min 63 ((c1 * 63).tdiv 255)) <<< (5 : Int)))
        (min 31 ((c2 * 31).tdiv 255))) := by
  have e0 : pyIntDiv255 (c0 * 31) = .ok ((c0 * 31).tdiv 255) := by
    unfold pyIntDiv255
    rw [if_neg (not_le.mpr h0)]
  have e1 : pyIntDiv255 (c1 * 63) = .ok ((c1 * 63).tdiv 255) := by
    unfold pyIntDiv255
    rw [if_neg (not_le.mpr h1)]
  have e2 : pyIntDiv255 (c2 * 31) = .ok ((c2 * 31).tdiv 255) := by
    unfold pyIntDiv255
    rw [if_neg (not_le.mpr h2)]
  show (pyIntDiv255 (c0 * 31) >>= fun r0 =>
      pyIntDiv255 (c1 * 63) >>= fun g0 =>
      pyIntDiv255 (c2 * 31) >>= fun b0 =>
      packU16 (Int.lor (Int.lor
        ((min 31 r0) <<< (11 : Int)) ((min 63 g0) <<< (5 : Int)))
        (min 31 b0))) = _
  rw [e0, e1, e2]
  rfl

lemma packList_cons_ok {α : Type} {f : α → Except String (List Nat)}
    {x : α} {xs : List α} {out : List Nat}
    (h : packList f (x :: xs) = .ok out) :
    ∃ b rest, f x = .ok b ∧ packList f xs = .ok rest ∧ out = b ++ rest := by
  unfold packList at h
  obtain ⟨b, hb, h⟩ := exceptBind_ok h
  obtain ⟨rest, hr, h⟩ := exceptBind_ok h
  exact ⟨b, rest, hb, hr, (Except.ok.inj h).symm⟩

lemma packList_ok_length {α : Type} {f : α → Except String (List Nat)} {k : Nat} :
    ∀ {l : List α} {out : List Nat}, packList f l = .ok out →
      (∀ x ∈ l, ∀ b, f x = .ok b → b.length = k) →
      out.length = k * l.length
  | [], out, h, _ => by
      unfold packList at h
      cases h
      simp
  | x :: xs, out, h, hk => by
      obtain ⟨b, rest, hb, hr, rfl⟩ := packList_cons_ok h
      have h1 : b.length = k := hk x (by simp) b hb
      have h2 : rest.length = k * xs.length :=
        packList_ok_length hr (fun y hy => hk y (by simp [hy]))
      simp [h1, h2, Nat.mul_succ]
      omega

lemma packList_ok_slice {α : Type} {f : α → Except String (List Nat)} {k : Nat} :
    ∀ {l : List α} {out : List Nat}, packList f l = .ok out →
      (∀ x ∈ l, ∀ b, f x = .ok b → b.length = k) →
      ∀ i (hi : i < l.length), ∃ b, f (l.get ⟨i, hi⟩) = .ok b ∧
        (out.drop (k * i)).take k = b
  | [], _, _, _, i, hi => absurd hi (by simp)
  | x :: xs, out, h, hk, i, hi => by
      obtain ⟨b, rest, hb, hr, rfl⟩ := packList_cons_ok h
      have h1 : b.length = k := hk x (by simp) b hb
      cases i with
      | zero =>
        refine ⟨b, hb, ?_⟩
        simpa using List.take_left' h1
      | succ j =>
        have hj : j < xs.length := by simpa using hi
        obtain ⟨bj, hbj, hsl⟩ :=
          packList_ok_slice hr (fun y hy => hk y (by simp [hy])) j hj
        refine ⟨bj, hbj, ?_⟩
        have hdrop : (b ++ rest).drop (k * (j + 1)) = rest.drop (k * j) := by
          have : k * (j + 1) = b.length + k * j := by
            rw [h1]; ring
          rw [this, List.drop_append]
        rw [hdrop]
        exact hsl

lemma triangleBytes_ok {t : STLTriangle} {b : List Nat}
    (h : triangleBytes t = .ok b) :
    ∃ nb vb tb, pack3f t.normal = .ok nb ∧
      packList pack3f t.vertices = .ok vb ∧
      trailerBytes t.color = .ok tb ∧ b = nb ++ vb ++ tb := by
  unfold triangleBytes at h
  obtain ⟨nb, hn, h⟩ := exceptBind_ok h
  obtain ⟨vb, hv, h⟩ := exceptBind_ok h
  obtain ⟨tb, ht, h⟩ := exceptBind_ok h
  exact ⟨nb, vb, tb, hn, hv, ht, (Except.ok.inj h).symm⟩

lemma triangleBytes_ok_length {t : STLTriangle} {b : List Nat}
    (h : triangleBytes t = .ok b) (hv3 : t.vertices.length = 3) :
    b.length = 50 := by
  obtain ⟨nb, vb, tb, hn, hvok, ht, rfl⟩ := triangleBytes_ok h
  have l1 : nb.length = 12 := pack3f_ok_length hn
  have l2 : vb.length = 12 * t.vertices.length :=
    packList_ok_length hvok (fun x _ b hb => pack3f_ok_length hb)
  have l3 : tb.length = 2 := trailerBytes_ok_length ht
  simp [l1, l2, l3, hv3]

lemma headerBytes_length (header : List Nat) :
    (headerBytes header).length = 80 := by
  unfold headerBytes
  simp

lemma write_binary_stl_ok {header : List Nat} {ts : List STLTriangle}
    {bs : List Nat} (h : write_binary_stl header ts = .ok bs) :
    ∃ body, ts.length < 2 ^ 32 ∧ packList triangleBytes ts = .ok body ∧
      bs = headerBytes header ++ u32le ts.length ++ body := by
  unfold write_binary_stl packU32 at h
  split at h
  · obtain ⟨cb, hcb, h⟩ := exceptBind_ok h
    obtain ⟨body, hb, h⟩ := exceptBind_ok h
    refine ⟨body, by omega, hb, ?_⟩
    rw [(Except.ok.inj h).symm, ← Except.ok.inj hcb, List.append_assoc]
  · exact Except.noConfusion h

/-- C1: whenever `write_binary_stl` succeeds on a sequence of
three-vertex triangles, the byte stream has exactly `84 + 50 * n`
bytes: an 80-byte null-padded truncated header, the 4-byte
little-endian count `n`, and, for triangle `i` of the sequence, a
50-byte record (12 normal bytes + 36 vertex bytes + 2 trailer bytes)
at offset `84 + 50 * i`. -/
theorem C1_binary_stl_layout (header : List Nat) (ts : List STLTriangle)
    (bs : List Nat) (hv : ∀ t ∈ ts, t.vertices.length = 3)
    (h : write_binary_stl header ts = .ok bs) :
    bs.length = 84 + 50 * ts.length ∧
    bs.take 80 = headerBytes header ∧
    (bs.drop 80).take 4 = u32le ts.length ∧
    ∀ i (hi : i < ts.length), ∃ r, triangleBytes (ts.get ⟨i, hi⟩) = .ok r ∧
      r.length = 50 ∧ (bs.drop (84 + 50 * i)).take 50 = r := by
  obtain ⟨body, _, hbody, rfl⟩ := write_binary_stl_ok h
  have hlen : ∀ t ∈ ts, ∀ b, triangleBytes t = .ok b → b.length = 50 :=
    fun t htm b hb => triangleBytes_ok_length hb (hv t htm)
  have hbl : body.length = 50 * ts.length := packList_ok_length hbody hlen
  have hhl : (headerBytes header).length = 80 := headerBytes_length header
  have hcl : (u32le ts.length).length = 4 := rfl
  refine ⟨?_, ?_, ?_, ?_⟩
  · simp [hhl, hcl, hbl]; ring
  · rw [List.append_assoc, ← hhl, List.take_left]
  · rw [List.append_assoc, ← hhl, List.drop_left, ← hcl, List.take_left]
  · intro i hi
    obtain ⟨r, hr, hsl⟩ := packList_ok_slice hbody hlen i hi
    refine ⟨r, hr, hlen _ (List.get_mem ts i hi) r hr, ?_⟩
    have hpre : (headerBytes header ++ u32le ts.length).length = 84 := by
      simp [hhl, hcl]
    have hdrop : (headerBytes header ++ u32le ts.length ++ body).drop (84 + 50 * i)
        = body.drop (50 * i) := by
      rw [← hpre, List.drop_append]
    rw [hdrop]
    exact hsl

/-- The header `"Binary Tetrahedron Test"` of the generated tetrahedron
file, as its UTF-8 bytes. -/
def tetraHeader : List Nat :=
  [66, 105, 110, 97, 114, 121, 32, 84, 101, 116, 114, 97, 104, 101,
   100, 114, 111, 110, 32, 84, 101, 115, 116]

/-- The 4-triangle uncolored tetrahedron of `create_tetrahedron`
(vertices `(0,0,0)`, `(1,0,0)`, `(0.5,0.866,0)`, `(0.5,0.289,0.816)`
and the four faces in source order), coordinates and unit normals
given as IEEE-754 single-precision bit patterns. -/
def tetraTriangles : List STLTriangle :=
  let v1 : List Nat := [0x00000000, 0x00000000, 0x00000000]
  let v2 : List Nat := [0x3F800000, 0x00000000, 0x00000000]
  let v3 : List Nat := [0x3F000000, 0x3F5DB22D, 0x00000000]
  let v4 : List Nat := [0x3F000000, 0x3E93F7CF, 0x3F50E560]
  [ { normal := [0x00000000, 0x00000000, 0x3F800000],
      vertices := [v1, v2, v3], color := none },
    { normal := [0x3F510563, 0xBEF15D22, 0xBEAAAB94],
      vertices := [v1, v3, v4], color := none },
    { normal := [0x00000000, 0x3F715005, 0xBEAAEE03],
      vertices := [v1, v4, v2], color := none },
    { normal := [0xBF510563, 0xBEF15D22, 0xBEAAAB94],
      vertices := [v2, v4, v3], color := none } ]

/-- Witness for C1: the 4-triangle uncolored tetrahedron yields a
284-byte file (`84 + 50 * 4`). -/
theorem C1_binary_stl_layout_witness :
    (write_binary_stl tetraHeader tetraTriangles).map List.length =
      .ok 284 := by
  obtain ⟨bs, hbs⟩ :
      ∃ bs, write_binary_stl tetraHeader tetraTriangles = .ok bs := ⟨_, rfl⟩
  have h := (C1_binary_stl_layout tetraHeader tetraTriangles bs
    (by decide) hbs).1
  rw [hbs, show ((Except.ok bs : Except String (List Nat)).map List.length)
      = Except.ok bs.length from rfl, h]
  rfl

/-- The RGB565 packing formula exactly as the spec words it:
5 bits red (`⌊R*31/255⌋`), 6 bits green (`⌊G*63/255⌋`), 5 bits blue
(`⌊B*31/255⌋`), red in the most-significant position. -/
def rgb565_spec (R G B : Nat) : Nat :=
  ((R * 31 / 255) <<< 11) ||| ((G * 63 / 255) <<< 5) ||| (B * 31 / 255)

lemma int_lor_coe (m n : Nat) :
    Int.lor (m : Int) (n : Int) = ((m ||| n : Nat) : Int) := rfl

lemma int_tdiv_coe (m n : Nat) :
    ((m : Int)).tdiv (n : Int) = ((m / n : Nat) : Int) := rfl

/-- C2: for channels in `[0,255]` the attribute trailer is exactly the
little-endian RGB565 packing the spec gives; without a color it is
zero; and `(255,0,0)` packs to `0xF800`. -/
theorem C2_trailer_rgb565 (R G B : Nat)
    (hR : R ≤ 255) (hG : G ≤ 255) (hB : B ≤ 255) :
    trailerBytes (some [(R : Int), (G : Int), (B : Int)]) =
      .ok (u16le (rgb565_spec R G B)) ∧
    trailerBytes none = .ok (u16le 0) ∧
    rgb565_spec 255 0 0 = 0xF800 := by
  refine ⟨?_, rfl, rfl⟩
  have er : ((R : Int) * 31).tdiv 255 = ((R * 31 / 255 : Nat) : Int) := by
    rw [show ((R : Int) * 31) = ((R * 31 : Nat) : Int) by push_cast; ring]
    exact int_tdiv_coe (R * 31) 255
  have eg : ((G : Int) * 63).tdiv 255 = ((G * 63 / 255 : Nat) : Int) := by
    rw [show ((G : Int) * 63) = ((G * 63 : Nat) : Int) by push_cast; ring]
    exact int_tdiv_coe (G * 63) 255
  have eb : ((B : Int) * 31).tdiv 255 = ((B * 31 / 255 : Nat) : Int) := by
    rw [show ((B : Int) * 31) = ((B * 31 : Nat) : Int) by push_cast; ring]
    exact int_tdiv_coe (B * 31) 255
  have br : R * 31 / 255 ≤ 31 := by
    have := Nat.div_le_div_right (c := 255) (Nat.mul_le_mul_right 31 hR)
    omega
  have bg : G * 63 / 255 ≤ 63 := by
    have := Nat.div_le_div_right (c := 255) (Nat.mul_le_mul_right 63 hG)
    omega
  have bb : B * 31 / 255 ≤ 31 := by
    have := Nat.div_le_div_right (c := 255) (Nat.mul_le_mul_right 31 hB)
    omega
  have mr : min (31 : Int) (((R : Int) * 31).tdiv 255) =
      ((R * 31 / 255 : Nat) : Int) := by
    rw [er, min_eq_right (by exact_mod_cast br)]
  have mg : min (63 : Int) (((G : Int) * 63).tdiv 255) =
      ((G * 63 / 255 : Nat) : Int) := by
    rw [eg, min_eq_right (by exact_mod_cast bg)]
  have mb : min (31 : Int) (((B : Int) * 31).tdiv 255) =
      ((B * 31 / 255 : Nat) : Int) := by
    rw [eb, min_eq_right (by exact_mod_cast bb)]
  have hpack : Int.lor (Int.lor
        ((((R * 31 / 255 : Nat) : Int)) <<< (11 : Int))
        ((((G * 63 / 255 : Nat) : Int)) <<< (5 : Int)))
        ((B * 31 / 255 : Nat) : Int) = ((rgb565_spec R G B : Nat) : Int) := by
    have s1 : (((R * 31 / 255 : Nat) : Int)) <<< (11 : Int) =
        (((R * 31 / 255) <<< 11 : Nat) : Int) := by
      have := Int.shiftLeft_coe_nat (R * 31 / 255) 11
      simpa using this
    have s2 : (((G * 63 / 255 : Nat) : Int)) <<< (5 : Int) =
        (((G * 63 / 255) <<< 5 : Nat) : Int) := by
      have := Int.shiftLeft_coe_nat (G * 63 / 255) 5
      simpa using this
    rw [s1, s2, int_lor_coe, int_lor_coe]
    rfl
  have hbound : rgb565_spec R G B < 65536 := by
    have h1 : (R * 31 / 255) <<< 11 < 2 ^ 16 := by
      rw [Nat.shiftLeft_eq]
      calc (R * 31 / 255) * 2 ^ 11 ≤ 31 * 2 ^ 11 :=
            Nat.mul_le_mul_right _ br
        _ < 2 ^ 16 := by norm_num
    have h2 : (G * 63 / 255) <<< 5 < 2 ^ 16 := by
      rw [Nat.shiftLeft_eq]
      calc (G * 63 / 255) * 2 ^ 5 ≤ 63 * 2 ^ 5 :=
            Nat.mul_le_mul_right _ bg
        _ < 2 ^ 16 := by norm_num
    have h3 : B * 31 / 255 < 2 ^ 16 := by omega
    have := Nat.or_lt_two_pow (Nat.or_lt_two_pow h1 h2) h3
    simpa [rgb565_spec] using this
  have oR : |((R : Int)) * 31| < pyOverflowBound := by
    rw [abs_of_nonneg (by positivity)]
    calc ((R : Int)) * 31 ≤ 255 * 31 :=
          mul_le_mul_of_nonneg_right (by exact_mod_cast hR) (by norm_num)
      _ < pyOverflowBound := by rw [pyOverflowBound_eq]; norm_num
  have oG : |((G : Int)) * 63| < pyOverflowBound := by
    rw [abs_of_nonneg (by positivity)]
    calc ((G : Int)) * 63 ≤ 255 * 63 :=
          mul_le_mul_of_nonneg_right (by exact_mod_cast hG) (by norm_num)
      _ < pyOverflowBound := by rw [pyOverflowBound_eq]; norm_num
  have oB : |((B : Int)) * 31| < pyOverflowBound := by
    rw [abs_of_nonneg (by positivity)]
    calc ((B : Int)) * 31 ≤ 255 * 31 :=
          mul_le_mul_of_nonneg_right (by exact_mod_cast hB) (by norm_num)
      _ < pyOverflowBound := by rw [pyOverflowBound_eq]; norm_num
  rw [trailerBytes_eval (R : Int) (G : Int) (B : Int) oR oG oB]
  rw [mr, mg, mb, hpack]
  unfold packU16
  have hc : (0 : Int) ≤ ((rgb565_spec R G B : Nat) : Int) ∧
      ((rgb565_spec R G B : Nat) : Int) < 65536 :=
    ⟨by positivity, by exact_mod_cast hbound⟩
  rw [if_pos hc]
  simp

/-- Witness for C2: color `(255,0,0)` yields the RGB565 trailer, and
that packed value is `0xF800` (bytes `00 F8` little-endian). -/
theorem C2_trailer_rgb565_witness :
    trailerBytes (some [((255 : Nat) : Int), ((0 : Nat) : Int),
        ((0 : Nat) : Int)]) = .ok (u16le (rgb565_spec 255 0 0)) ∧
    rgb565_spec 255 0 0 = 0xF800 :=
  ⟨(C2_trailer_rgb565 255 0 0 (by decide) (by decide) (by decide)).1,
   (C2_trailer_rgb565 255 0 0 (by decide) (by decide) (by decide)).2.2⟩

/-- A triangle whose color has a (very) negative red channel, as the
colored-cube path would carry it. -/
def negColorTriangle : STLTriangle :=
  { normal := [0, 0, 0x3F800000],
    vertices := [[0, 0, 0], [0x3F800000, 0, 0], [0, 0x3F800000, 0]],
    color := some [-255, 0, 0] }

/-- C3 counterexample: the encoder is not total over all integer color
inputs: at channel value `-255` the scaled field is `-31`, the packed
value is negative, and `struct.pack('<H', ...)` raises, so
`write_binary_stl` fails instead of emitting a trailer. -/
theorem C3_counterexample :
    write_binary_stl [] [negColorTriangle] =
      .error "struct.error: ushort format requires 0 <= number <= 65535" := by
  rfl

/-- C3 (amended): over colors with non-negative integer channels whose
scaled products stay below the double-overflow threshold of the true
division (`channel * k < 255 * (2^1024 - 2^970)`, i.e. channels up to
about `1.48e309`), the encoder is total: no validation is performed,
channels above 255 are silently clamped by the `min`, and a 2-byte
trailer is always emitted.  At or beyond the threshold the division
`color[i]*k/255` itself raises `OverflowError`, so the encoder is not
total even on non-negative inputs (second conjunct, at the channel
value `255 * (2^1024 - 2^970) ≈ 4.6e310`). -/
theorem C3_total_on_nonneg :
    (∀ R G B : Int, 0 ≤ R → 0 ≤ G → 0 ≤ B →
      R * 31 < 255 * (2 ^ 1024 - 2 ^ 970) →
      G * 63 < 255 * (2 ^ 1024 - 2 ^ 970) →
      B * 31 < 255 * (2 ^ 1024 - 2 ^ 970) →
      ∃ b, trailerBytes (some [R, G, B]) = .ok b ∧ b.length = 2) ∧
    trailerBytes (some [pyOverflowBound, 0, 0]) =
      .error "OverflowError: integer division result too large for a float"
    := by
  refine ⟨?_, by rfl⟩
  intro R G B hR hG hB hRo hGo hBo
  rw [← pyOverflowBound_eq] at hRo hGo hBo
  have hr0 : 0 ≤ min (31 : Int) ((R * 31).tdiv 255) :=
    le_min (by norm_num) (Int.tdiv_nonneg (by positivity) (by norm_num))
  have hg0 : 0 ≤ min (63 : Int) ((G * 63).tdiv 255) :=
    le_min (by norm_num) (Int.tdiv_nonneg (by positivity) (by norm_num))
  have hb0 : 0 ≤ min (31 : Int) ((B * 31).tdiv 255) :=
    le_min (by norm_num) (Int.tdiv_nonneg (by positivity) (by norm_num))
  obtain ⟨nr, hnr⟩ : ∃ n : Nat, min (31 : Int) ((R * 31).tdiv 255) = (n : Int) :=
    ⟨_, (Int.toNat_of_nonneg hr0).symm⟩
  obtain ⟨ng, hng⟩ : ∃ n : Nat, min (63 : Int) ((G * 63).tdiv 255) = (n : Int) :=
    ⟨_, (Int.toNat_of_nonneg hg0).symm⟩
  obtain ⟨nb, hnb⟩ : ∃ n : Nat, min (31 : Int) ((B * 31).tdiv 255) = (n : Int) :=
    ⟨_, (Int.toNat_of_nonneg hb0).symm⟩
  have bnr : nr ≤ 31 := by
    have : ((nr : Int)) ≤ 31 := hnr ▸ min_le_left _ _
    exact_mod_cast this
  have bng : ng ≤ 63 := by
    have : ((ng : Int)) ≤ 63 := hng ▸ min_le_left _ _
    exact_mod_cast this
  have bnb : nb ≤ 31 := by
    have : ((nb : Int)) ≤ 31 := hnb ▸ min_le_left _ _
    exact_mod_cast this
  have hpack : Int.lor (Int.lor ((nr : Int) <<< (11 : Int))
      ((ng : Int) <<< (5 : Int))) (nb : Int) =
      ((nr <<< 11 ||| ng <<< 5 ||| nb : Nat) : Int) := by
    have s1 : ((nr : Int)) <<< (11 : Int) = ((nr <<< 11 : Nat) : Int) := by
      have := Int.shiftLeft_coe_nat nr 11
      simpa using this
    have s2 : ((ng : Int)) <<< (5 : Int) = ((ng <<< 5 : Nat) : Int) := by
      have := Int.shiftLeft_coe_nat ng 5
      simpa using this
    rw [s1, s2, int_lor_coe, int_lor_coe]
  have hbound : nr <<< 11 ||| ng <<< 5 ||| nb < 65536 := by
    have h1 : nr <<< 11 < 2 ^ 16 := by
      rw [Nat.shiftLeft_eq]
      calc nr * 2 ^ 11 ≤ 31 * 2 ^ 11 := Nat.mul_le_mul_right _ bnr
        _ < 2 ^ 16 := by norm_num
    have h2 : ng <<< 5 < 2 ^ 16 := by
      rw [Nat.shiftLeft_eq]
      calc ng * 2 ^ 5 ≤ 63 * 2 ^ 5 := Nat.mul_le_mul_right _ bng
        _ < 2 ^ 16 := by norm_num
    have h3 : nb < 2 ^ 16 := by omega
    have := Nat.or_lt_two_pow (Nat.or_lt_two_pow h1 h2) h3
    simpa using this
  have oR : |R * 31| < pyOverflowBound := by
    rw [abs_of_nonneg (by positivity)]
    exact hRo
  have oG : |G * 63| < pyOverflowBound := by
    rw [abs_of_nonneg (by positivity)]
    exact hGo
  have oB : |B * 31| < pyOverflowBound := by
    rw [abs_of_nonneg (by positivity)]
    exact hBo
  refine ⟨u16le (nr <<< 11 ||| ng <<< 5 ||| nb), ?_, rfl⟩
  rw [trailerBytes_eval R G B oR oG oB]
  rw [hnr, hng, hnb, hpack]
  unfold packU16
  have hc : (0 : Int) ≤ ((nr <<< 11 ||| ng <<< 5 ||| nb : Nat) : Int) ∧
      ((nr <<< 11 ||| ng <<< 5 ||| nb : Nat) : Int) < 65536 :=
    ⟨by positivity, by exact_mod_cast hbound⟩
  rw [if_pos hc]
  simp

/-- Witness for C3 (amended): channels `(300, 700, 40)` — two above
255, all far below the overflow threshold — are accepted and a 2-byte
trailer is emitted. -/
theorem C3_total_on_nonneg_witness :
    ∃ b, trailerBytes (some [300, 700, 40]) = .ok b ∧ b.length = 2 :=
  C3_total_on_nonneg.1 300 700 40 (by norm_num) (by norm_num) (by norm_num)
    (by norm_num) (by norm_num) (by norm_num)

/-- C10: an empty color list is falsy and takes the no-color branch,
black `[0,0,0]` is truthy, reaches the packing branch, and packs to
`0x0000`; all three trailers are the identical bytes `[0, 0]`, so the
output cannot distinguish a black triangle from an uncolored one. -/
theorem C10_black_indistinguishable :
    trailerBytes (some []) = trailerBytes none ∧
    trailerBytes none = .ok [0, 0] ∧
    trailerBytes (some [0, 0, 0]) = .ok [0, 0] :=
  ⟨rfl, rfl, rfl⟩

/-! ## `src/testfiles/pfm/create_test_pfm.py` : `create_test_pfm`

The depth grid (the pyramid pattern) is abstracted as the `depths`
parameter — a top-to-bottom list of rows of float words — since the
serialization claim quantifies over every grid. -/

/-- `b'Pf\n'`, the grayscale PFM magic. -/
def pfmMagic : List Nat := [80, 102, 10]

/-- The ASCII digits of a natural number. -/
def asciiNat (n : Nat) : List Nat := (Nat.toDigits 10 n).map Char.toNat

/-- The ASCII dimension line `f'{width} {height}\n'`. -/
def pfmDimsLine (w h : Nat) : List Nat :=
  asciiNat w ++ [32] ++ asciiNat h ++ [10]

/-- The scale-factor line `b'-1.0\n'` (negative = little-endian). -/
def pfmScaleLine : List Nat := [45, 49, 46, 48, 10]

/-- The inner loop `for x in range(width): pack('<f', depths[y, x])`. -/
def pfmRowBytes (w : Nat) (row : List Nat) : List Nat :=
  ((List.range w).map (fun x => f32le (row.getD x 0))).flatten

/-- The outer loop `for y in range(height - 1, -1, -1)`: calling
`pfmRows depths w h` writes row `h-1` first and row `0` last. -/
def pfmRows (depths : List (List Nat)) (w : Nat) : Nat → List Nat
  | 0 => []
  | y + 1 => pfmRowBytes w (depths.getD y []) ++ pfmRows depths w y

/-- `create_test_pfm`: magic, dimension line, scale line, then the
pixel grid bottom row first. -/
def create_test_pfm (w h : Nat) (depths : List (List Nat)) : List Nat :=
  pfmMagic ++ pfmDimsLine w h ++ pfmScaleLine ++ pfmRows depths w h

lemma range_map_getD {α : Type} (l : List α) (d : α) :
    (List.range l.length).map (fun i => l.getD i d) = l := by
  induction l with
  | nil => simp
  | cons a l ih =>
    rw [List.length_cons, List.range_succ_eq_map]
    simp only [List.map_cons, List.map_map]
    refine congrArg (a :: ·) ?_
    have hcomp : ((fun i => (a :: l).getD i d) ∘ Nat.succ) =
        (fun i => l.getD i d) := funext (fun i => rfl)
    rw [hcomp, ih]

lemma pfmRowBytes_eq (w : Nat) (row : List Nat) (hw : row.length = w) :
    pfmRowBytes w row = (row.map f32le).flatten := by
  unfold pfmRowBytes
  rw [← hw, show (fun x => f32le (row.getD x 0)) =
      (f32le ∘ fun i => row.getD i 0) from rfl, ← List.map_map,
    range_map_getD]

lemma pfmRows_take (depths : List (List Nat)) (w : Nat) :
    ∀ n, n ≤ depths.length →
      pfmRows depths w n =
        (((depths.take n).reverse).map (pfmRowBytes w)).flatten
  | 0, _ => by simp [pfmRows]
  | n + 1, hn => by
    have hlt : n < depths.length := hn
    have ih := pfmRows_take depths w n (Nat.le_of_lt hlt)
    rw [pfmRows, ih, List.take_succ]
    have hget : depths[n]? = some (depths.getD n []) := by
      rw [List.getD_eq_getElem?_getD]
      cases hx : depths[n]? with
      | none => exact absurd (List.getElem?_eq_none_iff.mp hx) (by omega)
      | some v => rfl
    rw [hget]
    simp

/-- C4: for every `w × h` grid in top-to-bottom row order,
`create_test_pfm` emits the grayscale magic `"Pf\n"`, the ASCII
`"{w} {h}\n"` line, the scale line `"-1.0\n"` — whose first byte is
the ASCII minus sign 45, marking little-endian — and then the rows in
exactly reversed input order (bottom row first), each row
left-to-right, each sample as 4 little-endian bytes. -/
theorem C4_pfm_layout (w h : Nat) (depths : List (List Nat))
    (hh : depths.length = h) (hw : ∀ row ∈ depths, row.length = w) :
    create_test_pfm w h depths =
      pfmMagic ++ pfmDimsLine w h ++ pfmScaleLine ++
        (depths.reverse.map (fun row => (row.map f32le).flatten)).flatten ∧
    pfmScaleLine.get? 0 = some 45 := by
  refine ⟨?_, rfl⟩
  unfold create_test_pfm
  rw [← hh, pfmRows_take depths w depths.length le_rfl, List.take_length]
  have : (depths.reverse).map (pfmRowBytes w) =
      depths.reverse.map (fun row => (row.map f32le).flatten) := by
    apply List.map_congr_left
    intro row hrow
    exact pfmRowBytes_eq w row (hw row (List.mem_reverse.mp hrow))
  rw [this]

/-- Witness for C4 at a concrete 2×2 grid. -/
theorem C4_pfm_layout_witness :
    create_test_pfm 2 2 [[1, 2], [3, 4]] =
      pfmMagic ++ pfmDimsLine 2 2 ++ pfmScaleLine ++
        (([[1, 2], [3, 4]] : List (List Nat)).reverse.map
          (fun row => (row.map f32le).flatten)).flatten ∧
    pfmScaleLine.get? 0 = some 45 :=
  C4_pfm_layout 2 2 [[1, 2], [3, 4]] (by decide) (by decide)

/-! ## `src/testfiles/np/create_npy_test_files.py` : `create_test_npy_files`

Samples are modelled as exact rationals.  The radial term
`np.sqrt((X-0.5)**2 + (Y-0.5)**2)` at a pixel is abstracted as the
per-pixel field `radial` (its value is irrelevant to the claims, which
hold for every radial and every noise realization; `ℚ` has no square
root).  The final `astype(np.float32)` is omitted: float32 rounding is
monotone and the nearest float32 to any value `≥ 0.1` is itself
`≥ fl32(0.1) > 0.1`, so the floor property is preserved. -/

/-- One raw sample of `depth_data`:
`1.0 + 2.0 * sqrt(...) + noise` at pixel `(y, x)`. -/
def depthRaw (radial noise : Nat → Nat → ℚ) (y x : Nat) : ℚ :=
  1 + 2 * radial y x + noise y x

/-- `depth_data = np.maximum(depth_data, 0.1)`: the clamp to the
positive floor, applied pointwise. -/
def depth_data (radial noise : Nat → Nat → ℚ) (y x : Nat) : ℚ :=
  max (depthRaw radial noise y x) (1 / 10)

/-- `baseline = 0.1` (10 cm). -/
def baseline : ℚ := 1 / 10

/-- `focal_length = 525.0` pixels. -/
def focal_length : ℚ := 525

/-- `disparity_data = (baseline * focal_length) / depth_data`,
pointwise. -/
def disparity_data (radial noise : Nat → Nat → ℚ) (y x : Nat) : ℚ :=
  baseline * focal_length / depth_data radial noise y x

/-- C5: for every pixel, every radial value and every noise
realization, the clamped depth sample is at least the positive floor
`0.1`. -/
theorem C5_depth_floor (radial noise : Nat → Nat → ℚ) (y x : Nat) :
    1 / 10 ≤ depth_data radial noise y x :=
  le_max_right _ _

/-- C6: for every pixel the disparity equals
`0.1 × 525.0 / depth`, and the clamped depth divisor is strictly
positive — in particular never zero, so the division-by-zero branch is
unreachable. -/
theorem C6_disparity_formula (radial noise : Nat → Nat → ℚ) (y x : Nat) :
    disparity_data radial noise y x =
      (1 / 10) * 525 / depth_data radial noise y x ∧
    0 < depth_data radial noise y x ∧
    depth_data radial noise y x ≠ 0 := by
  have hpos : 0 < depth_data radial noise y x :=
    lt_of_lt_of_le (by norm_num) (C5_depth_floor radial noise y x)
  exact ⟨rfl, hpos, ne_of_gt hpos⟩

/-! ## `src/testfiles/open3d/generate_test_files.py` : the batch loops

The Open3D writers are I/O; each per-format `try` block's outcome is
an oracle `write : String → Except String Bool` (`.error e` models a
raised exception with message `e`, `.ok` the returned success flag),
and the loops are modelled as the list of lines they print. -/

/-- The `formats` table of `generate_point_cloud_files`. -/
def pointcloud_formats : List (String × String) :=
  [("ply", "sample_pointcloud.ply"), ("pcd", "sample_pointcloud.pcd"),
   ("xyz", "sample_pointcloud.xyz"), ("xyzn", "sample_pointcloud.xyzn"),
   ("xyzrgb", "sample_pointcloud.xyzrgb"), ("pts", "sample_pointcloud.pts")]

/-- The `formats` table of `generate_mesh_files`. -/
def mesh_formats : List (String × String) :=
  [("ply", "sample_mesh.ply"), ("stl", "sample_mesh.stl"),
   ("obj", "sample_mesh.obj"), ("off", "sample_mesh.off"),
   ("gltf", "sample_mesh.gltf"), ("glb", "sample_mesh.glb")]

/-- One iteration of the point-cloud loop: the lines printed by the
`try`/`except` around `o3d.io.write_point_cloud`. -/
def pcAttempt (write : String → Except String Bool) (filename : String) :
    List String :=
  match write filename with
  | .ok true => ["✓ Created " ++ filename]
  | .ok false => ["✗ Failed to create " ++ filename]
  | .error e => ["✗ Error creating " ++ filename ++ ": " ++ e]

/-- The `for format_name, filename in formats.items()` loop of
`generate_point_cloud_files` (printed lines). -/
def generate_point_cloud_files (write : String → Except String Bool) :
    List (String × String) → List String
  | [] => []
  | (_, filename) :: rest =>
      pcAttempt write filename ++ generate_point_cloud_files write rest

/-- One iteration of the mesh loop: on success for the `obj` format it
additionally reports the MTL sidecar (existing or generated), all
still inside the same broad `try`. -/
def meshAttempt (write : String → Except String Bool)
    (mtlExists : String → Bool) (fmt filename : String) : List String :=
  match write filename with
  | .ok true =>
      ["✓ Created " ++ filename] ++
      (if fmt = "obj" then
        if mtlExists (filename.replace ".obj" ".mtl") then
          ["✓ Created " ++ filename.replace ".obj" ".mtl" ++
            " (material file)"]
        else
          ["✓ Created " ++ filename.replace ".obj" ".mtl" ++
            " (generated material file)"]
       else [])
  | .ok false => ["✗ Failed to create " ++ filename]
  | .error e => ["✗ Error creating " ++ filename ++ ": " ++ e]

/-- The `for format_name, filename in formats.items()` loop of
`generate_mesh_files` (printed lines). -/
def generate_mesh_files (write : String → Except String Bool)
    (mtlExists : String → Bool) : List (String × String) → List String
  | [] => []
  | (fmt, filename) :: rest =>
      meshAttempt write mtlExists fmt filename ++
        generate_mesh_files write mtlExists rest

/-- C7: in both batch loops, each format's write is wrapped in a broad
handler: an exception produces a `✗` line carrying the caught message,
head processing never short-circuits the rest of the table (the loop
output is the concatenation of one non-empty block per table entry, in
table order), and there is no retry — exactly one block per entry. -/
theorem C7_batch_loops_continue (write : String → Except String Bool)
    (mtlExists : String → Bool) :
    (∀ fmt fn rest, generate_point_cloud_files write ((fmt, fn) :: rest) =
        pcAttempt write fn ++ generate_point_cloud_files write rest) ∧
    (∀ fmt fn rest,
        generate_mesh_files write mtlExists ((fmt, fn) :: rest) =
          meshAttempt write mtlExists fmt fn ++
            generate_mesh_files write mtlExists rest) ∧
    (∀ fs, generate_point_cloud_files write fs =
        (fs.map (fun p => pcAttempt write p.2)).flatten) ∧
    (∀ fs, generate_mesh_files write mtlExists fs =
        (fs.map (fun p => meshAttempt write mtlExists p.1 p.2)).flatten) ∧
    (∀ fn e, write fn = .error e →
        pcAttempt write fn = ["✗ Error creating " ++ fn ++ ": " ++ e]) ∧
    (∀ fn e, write fn = .error e → ∀ fmt, meshAttempt write mtlExists fmt fn
        = ["✗ Error creating " ++ fn ++ ": " ++ e]) ∧
    (∀ fn, pcAttempt write fn ≠ []) ∧
    (∀ fmt fn, meshAttempt write mtlExists fmt fn ≠ []) := by
  refine ⟨fun _ _ _ => rfl, fun _ _ _ => rfl, ?_, ?_, ?_, ?_, ?_, ?_⟩
  · intro fs
    induction fs with
    | nil => rfl
    | cons p rest ih =>
      cases p with
      | mk fmt fn => simp [generate_point_cloud_files, ih]
  · intro fs
    induction fs with
    | nil => rfl
    | cons p rest ih =>
      cases p with
      | mk fmt fn => simp [generate_mesh_files, ih]
  · intro fn e he
    unfold pcAttempt
    rw [he]
  · intro fn e he fmt
    unfold meshAttempt
    rw [he]
  · intro fn
    unfold pcAttempt
    cases write fn with
    | error e => simp
    | ok b => cases b <;> simp
  · intro fmt fn
    unfold meshAttempt
    cases write fn with
    | error e => simp
    | ok b => cases b <;> simp

/-- A concrete oracle for the witness: the `pcd` write raises, every
other write succeeds. -/
def demoWrite : String → Except String Bool := fun fn =>
  if fn = "sample_pointcloud.pcd" then .error "boom" else .ok true

/-- Witness for C7: with an oracle that raises on the second table
entry, the loop still reports all six formats, the failing one with
the caught message. -/
theorem C7_batch_loops_continue_witness :
    generate_point_cloud_files demoWrite pointcloud_formats =
      (pointcloud_formats.map (fun p => pcAttempt demoWrite p.2)).flatten ∧
    pcAttempt demoWrite "sample_pointcloud.pcd" =
      ["✗ Error creating sample_pointcloud.pcd: boom"] ∧
    (generate_point_cloud_files demoWrite pointcloud_formats).length = 6 :=
  ⟨(C7_batch_loops_continue demoWrite (fun _ => false)).2.2.1
      pointcloud_formats,
   (C7_batch_loops_continue demoWrite (fun _ => false)).2.2.2.2.1
      "sample_pointcloud.pcd" "boom" (by rfl),
   by rfl⟩

/-! ## `src/testfiles/png/create_test_png.py` : the invalid-pixels
variant

The 16-bit image is a pixel function `Nat → Nat → Nat` (row, column).
`depth_with_invalid` starts as a copy of `depth_mm` and then runs
`for i in range(0, height, 10): for j in range(0, width, 10):
depth_with_invalid[i:i+2, j:j+2] = 0`, with `height = width = 100`. -/

/-- `range(0, limit, 10)`: the multiples of 10 below `limit`. -/
def stepTens (limit : Nat) : List Nat :=
  (List.range ((limit + 9) / 10)).map (· * 10)

/-- The block assignment `arr[i:i+2, j:j+2] = 0` as a pixel-function
update. -/
def zeroBlock (i j : Nat) (img : Nat → Nat → Nat) : Nat → Nat → Nat :=
  fun r c => if (i ≤ r ∧ r < i + 2) ∧ (j ≤ c ∧ c < j + 2) then 0 else img r c

/-- The nested zeroing loops of `create_test_depth_png` applied to a
copy of the `h × w` depth image. -/
def depth_with_invalid (h w : Nat) (img : Nat → Nat → Nat) :
    Nat → Nat → Nat :=
  (stepTens h).foldl
    (fun acc i => (stepTens w).foldl (fun a j => zeroBlock i j a) acc) img

lemma foldl_zeroBlock_inner (i : Nat) (r c : Nat) :
    ∀ (cols : List Nat) (acc : Nat → Nat → Nat),
      ((cols.foldl (fun a j => zeroBlock i j a) acc) r c) =
        if (i ≤ r ∧ r < i + 2) ∧ (∃ j ∈ cols, j ≤ c ∧ c < j + 2) then 0
        else acc r c
  | [], acc => by simp
  | j :: js, acc => by
      rw [List.foldl_cons, foldl_zeroBlock_inner i r c js]
      unfold zeroBlock
      by_cases hA : i ≤ r ∧ r < i + 2
      · by_cases hj : j ≤ c ∧ c < j + 2
        · by_cases hjs : ∃ k ∈ js, k ≤ c ∧ c < k + 2 <;>
            simp [hA, hj, hjs]
        · by_cases hjs : ∃ k ∈ js, k ≤ c ∧ c < k + 2 <;>
            simp [hA, hj, hjs]
      · simp [hA]

lemma foldl_zeroBlock_outer (r c : Nat) (cols : List Nat) :
    ∀ (rows : List Nat) (img : Nat → Nat → Nat),
      ((rows.foldl
        (fun acc i => cols.foldl (fun a j => zeroBlock i j a) acc) img) r c) =
        if ∃ i ∈ rows, (i ≤ r ∧ r < i + 2) ∧
            ∃ j ∈ cols, j ≤ c ∧ c < j + 2 then 0
        else img r c
  | [], img => by simp
  | i :: is, img => by
      rw [List.foldl_cons, foldl_zeroBlock_outer r c cols is]
      rw [foldl_zeroBlock_inner i r c cols img]
      by_cases hi : (i ≤ r ∧ r < i + 2) ∧ ∃ j ∈ cols, j ≤ c ∧ c < j + 2
      · by_cases his : ∃ a ∈ is, (a ≤ r ∧ r < a + 2) ∧
            ∃ j ∈ cols, j ≤ c ∧ c < j + 2 <;> simp [hi, his]
      · by_cases his : ∃ a ∈ is, (a ≤ r ∧ r < a + 2) ∧
            ∃ j ∈ cols, j ≤ c ∧ c < j + 2 <;> simp [hi, his]

lemma stepTens_cover_iff (r : Nat) (hr : r < 100) :
    (∃ i ∈ stepTens 100, i ≤ r ∧ r < i + 2) ↔ r % 10 ≤ 1 := by
  unfold stepTens
  constructor
  · rintro ⟨i, hi, h1, h2⟩
    simp only [List.mem_map, List.mem_range] at hi
    obtain ⟨k, hk, rfl⟩ := hi
    omega
  · intro h
    refine ⟨10 * (r / 10), ?_, by omega, by omega⟩
    simp only [List.mem_map, List.mem_range]
    exact ⟨r / 10, by omega, by omega⟩

/-- C8: in the 100×100 invalid-pixels variant, a pixel is zeroed
exactly when its row index is 0 or 1 mod 10 and its column index is 0
or 1 mod 10; every other pixel keeps the value of the source depth
image. -/
theorem C8_invalid_pixel_blocks (img : Nat → Nat → Nat) (r c : Nat)
    (hr : r < 100) (hc : c < 100) :
    depth_with_invalid 100 100 img r c =
      if r % 10 ≤ 1 ∧ c % 10 ≤ 1 then 0 else img r c := by
  unfold depth_with_invalid
  rw [foldl_zeroBlock_outer r c (stepTens 100) (stepTens 100) img]
  have hiff : (∃ i ∈ stepTens 100, (i ≤ r ∧ r < i + 2) ∧
      ∃ j ∈ stepTens 100, j ≤ c ∧ c < j + 2) ↔
      (r % 10 ≤ 1 ∧ c % 10 ≤ 1) := by
    rw [← stepTens_cover_iff r hr, ← stepTens_cover_iff c hc]
    constructor
    · rintro ⟨i, hi, hri, hcj⟩
      exact ⟨⟨i, hi, hri⟩, hcj⟩
    · rintro ⟨⟨i, hi, hri⟩, hcj⟩
      exact ⟨i, hi, hri, hcj⟩
  rw [if_congr hiff rfl rfl]

/-- Witness for C8: pixel `(11, 40)` lies in a zeroed block, pixel
`(5, 7)` is untouched. -/
theorem C8_invalid_pixel_blocks_witness :
    depth_with_invalid 100 100 (fun r c => 100 * r + c) 11 40 = 0 ∧
    depth_with_invalid 100 100 (fun r c => 100 * r + c) 5 7 = 507 := by
  constructor
  · rw [C8_invalid_pixel_blocks (fun r c => 100 * r + c) 11 40
      (by decide) (by decide)]
    decide
  · rw [C8_invalid_pixel_blocks (fun r c => 100 * r + c) 5 7
      (by decide) (by decide)]
    decide

/-! ## `src/testfiles/open3d/generate_test_files.py` : the factor
choosers

`while p1 > 1 and n % p1 != 0: p1 -= 1` is the structurally decreasing
`factorDown`.  The float seeds `int(round(np.sqrt(n)))` and
`int(round(n ** (1.0/3.0)))` are modelled exactly over the reals:
for an integer argument the rounded value is `⌊√n + 1/2⌋`
(resp. `⌊∛n + 1/2⌋`), never a half-integer tie. -/

/-- The decrement loop: starting at `p`, the first divisor of `n`
encountered counting down (stopping at 1). -/
def factorDown (n : Nat) : Nat → Nat
  | 0 => 0
  | 1 => 1
  | p + 2 => if n % (p + 2) = 0 then p + 2 else factorDown n (p + 1)

/-- `int(round(sqrt(n)))` for a natural `n`: `⌊√n + 1/2⌋`, the
greatest `k` with `(2k-1)² ≤ 4n`. -/
def roundSqrt (n : Nat) : Nat :=
  ((List.range (n + 2)).filter (fun k => (2 * k - 1) ^ 2 ≤ 4 * n)).foldr
    max 0

/-- `int(round(n ** (1.0/3.0)))` for a natural `n`: `⌊∛n + 1/2⌋`, the
greatest `k` with `(2k-1)³ ≤ 8n`. -/
def roundCbrt (n : Nat) : Nat :=
  ((List.range (n + 2)).filter (fun k => (2 * k - 1) ^ 3 ≤ 8 * n)).foldr
    max 0

/-- `_choose_2d_factors(n)`. -/
def choose_2d_factors (n : Int) : Int × Int :=
  if n ≤ 0 then (1, 1)
  else
    let p1 := factorDown n.toNat (max 1 (roundSqrt n.toNat))
    ((p1 : Int), ((n.toNat / p1 : Nat) : Int))

/-- `_choose_3d_factors(n)`. -/
def choose_3d_factors (n : Int) : Int × Int × Int :=
  if n ≤ 0 then (1, 1, 1)
  else
    let p1 := factorDown n.toNat (max 1 (roundCbrt n.toNat))
    let remaining := n.toNat / p1
    let p2 := factorDown remaining (max 1 (roundSqrt remaining))
    ((p1 : Int), (p2 : Int), ((remaining / p2 : Nat) : Int))

lemma factorDown_spec (n : Nat) :
    ∀ p, 1 ≤ p → 1 ≤ factorDown n p ∧ n % factorDown n p = 0
  | 0, h => absurd h (by omega)
  | 1, _ => ⟨le_refl 1, Nat.mod_one n⟩
  | p + 2, _ => by
      by_cases hd : n % (p + 2) = 0
      · rw [show factorDown n (p + 2) = p + 2 from by simp [factorDown, hd]]
        exact ⟨by omega, hd⟩
      · rw [show factorDown n (p + 2) = factorDown n (p + 1) from by
          simp [factorDown, hd]]
        exact factorDown_spec n (p + 1) (by omega)

lemma factor_pair (m p : Nat) (hm : 0 < m) (_hp : 1 ≤ p)
    (hmod : m % p = 0) : 0 < m / p ∧ p * (m / p) = m := by
  have hdvd : p ∣ m := Nat.dvd_of_mod_eq_zero hmod
  have heq : p * (m / p) = m := Nat.mul_div_cancel' hdvd
  refine ⟨?_, heq⟩
  rcases Nat.eq_zero_or_pos (m / p) with h0 | h
  · rw [h0, Nat.mul_zero] at heq
    omega
  · exact h

/-- C9: for every `n > 0`, `_choose_2d_factors(n)` terminates (it is a
total function here, mirroring the strictly decreasing loop) and
returns positive factors with `p1 * p2 = n`; `_choose_3d_factors(n)`
likewise returns positive `p1 * p2 * p3 = n`; for `n ≤ 0` they return
`(1, 1)` and `(1, 1, 1)`, so the `[p1, p2, 3]` and `[p1, p2, p3, 3]`
reshapes of a `P`-point array are size-preserving. -/
theorem C9_factor_choosers (n : Int) :
    (0 < n →
      0 < (choose_2d_factors n).1 ∧ 0 < (choose_2d_factors n).2 ∧
      (choose_2d_factors n).1 * (choose_2d_factors n).2 = n ∧
      0 < (choose_3d_factors n).1 ∧ 0 < (choose_3d_factors n).2.1 ∧
      0 < (choose_3d_factors n).2.2 ∧
      (choose_3d_factors n).1 * ((choose_3d_factors n).2.1 *
        (choose_3d_factors n).2.2) = n) ∧
    (n ≤ 0 → choose_2d_factors n = (1, 1) ∧
      choose_3d_factors n = (1, 1, 1)) := by
  constructor
  · intro hn
    have hnle : ¬ n ≤ 0 := by omega
    have hm : 0 < n.toNat := by omega
    have hcast : ((n.toNat : Int)) = n := Int.toNat_of_nonneg (by omega)
    constructor
    · show 0 < (choose_2d_factors n).1
      unfold choose_2d_factors
      rw [if_neg hnle]
      have := (factorDown_spec n.toNat (max 1 (roundSqrt n.toNat))
        (le_max_left _ _)).1
      show (0 : Int) <
        ((factorDown n.toNat (max 1 (roundSqrt n.toNat)) : Nat) : Int)
      exact_mod_cast this
    constructor
    · show 0 < (choose_2d_factors n).2
      unfold choose_2d_factors
      rw [if_neg hnle]
      obtain ⟨h1, h2⟩ := factorDown_spec n.toNat
        (max 1 (roundSqrt n.toNat)) (le_max_left _ _)
      have := (factor_pair n.toNat _ hm h1 h2).1
      show (0 : Int) < ((n.toNat /
        factorDown n.toNat (max 1 (roundSqrt n.toNat)) : Nat) : Int)
      exact_mod_cast this
    constructor
    · show (choose_2d_factors n).1 * (choose_2d_factors n).2 = n
      unfold choose_2d_factors
      rw [if_neg hnle]
      obtain ⟨h1, h2⟩ := factorDown_spec n.toNat
        (max 1 (roundSqrt n.toNat)) (le_max_left _ _)
      have := (factor_pair n.toNat _ hm h1 h2).2
      calc ((factorDown n.toNat (max 1 (roundSqrt n.toNat)) : Nat) : Int) *
            ((n.toNat / factorDown n.toNat (max 1 (roundSqrt n.toNat))
              : Nat) : Int)
          = (((factorDown n.toNat (max 1 (roundSqrt n.toNat)) *
              (n.toNat / factorDown n.toNat (max 1 (roundSqrt n.toNat)))
              : Nat)) : Int) := by push_cast; ring
        _ = ((n.toNat : Int)) := by rw [this]
        _ = n := hcast
    · obtain ⟨h1, h2⟩ := factorDown_spec n.toNat
        (max 1 (roundCbrt n.toNat)) (le_max_left _ _)
      obtain ⟨hq, heq⟩ := factor_pair n.toNat _ hm h1 h2
      set m := n.toNat with hmdef
      set p1 := factorDown m (max 1 (roundCbrt m)) with hp1
      set rem := m / p1 with hrem
      obtain ⟨g1, g2⟩ := factorDown_spec rem
        (max 1 (roundSqrt rem)) (le_max_left _ _)
      obtain ⟨hq2, heq2⟩ := factor_pair rem _ hq g1 g2
      set p2 := factorDown rem (max 1 (roundSqrt rem)) with hp2
      have e3 : choose_3d_factors n =
          ((p1 : Int), (p2 : Int), ((rem / p2 : Nat) : Int)) := by
        unfold choose_3d_factors
        rw [if_neg hnle]
      rw [e3]
      refine ⟨?_, ?_, ?_, ?_⟩
      · show (0 : Int) < (p1 : Int)
        exact_mod_cast h1
      · show (0 : Int) < (p2 : Int)
        exact_mod_cast g1
      · show (0 : Int) < ((rem / p2 : Nat) : Int)
        exact_mod_cast hq2
      show (p1 : Int) * ((p2 : Int) * ((rem / p2 : Nat) : Int)) = n
      calc (p1 : Int) * ((p2 : Int) * ((rem / p2 : Nat) : Int))
          = ((p1 * (p2 * (rem / p2)) : Nat) : Int) := by push_cast; ring
        _ = ((p1 * rem : Nat) : Int) := by rw [heq2]
        _ = ((m : Nat) : Int) := by rw [heq]
        _ = n := hcast
  · intro hn
    have hle : n ≤ 0 := hn
    constructor
    · unfold choose_2d_factors
      rw [if_pos hle]
    · unfold choose_3d_factors
      rw [if_pos hle]

/-- Witness for C9: at `n = 12` the choosers give `(3, 4)` and
`(2, 2, 3)`, whose products are 12, and at `n = -5` both return all
ones. -/
theorem C9_factor_choosers_witness :
    (choose_2d_factors 12).1 * (choose_2d_factors 12).2 = 12 ∧
    (choose_3d_factors 12).1 * ((choose_3d_factors 12).2.1 *
      (choose_3d_factors 12).2.2) = 12 ∧
    choose_2d_factors 12 = (3, 4) ∧
    choose_3d_factors 12 = (2, 2, 3) ∧
    choose_2d_factors (-5) = (1, 1) ∧
    choose_3d_factors (-5) = (1, 1, 1) := by
  have h12 := (C9_factor_choosers 12).1 (by norm_num)
  have hneg := (C9_factor_choosers (-5)).2 (by norm_num)
  exact ⟨h12.2.2.1, h12.2.2.2.2.2.2, by decide, by decide, hneg.1, hneg.2⟩
